import Mathlib

/-!
Verification of the Site Verifier harness (`comprehensive-test.js`).

The harness issues HTTP GET requests for a fixed list of `TestCase`s, inspects
each response body with a list of `Check`s (title / content / element / json),
and prints a per-test verdict plus an aggregate success rate.

Shallow embedding conventions:
* HTML bodies and tokens are Lean `String`s; regex scans are modelled as
  executable scanning functions over `List Char`, with correctness lemmas
  relating each scanner to a declarative decomposition of the string that
  mirrors the corresponding JavaScript regular expression.
* The `/i` (ignore-case) regex flag is modelled by lowercasing both the body
  and the token with `Char.toLower` before scanning (exact for the ASCII
  markup this harness inspects).
* `JSON.parse` is modelled by a fuel-indexed recursive-descent parser for the
  JSON grammar returning `Option Json`; fuel is sized generously from the
  input length, so it never runs out on inputs the harness sees.
* Network effects are modelled by `FetchOutcome`: either a response
  (status code and body) or a rejection carrying an error message, which covers
  both connection errors and the 10-second timeout rejection.
-/

/- ### Data model (spec §3) -/

/-- The four check kinds of the harness (`check.type` strings in the source). -/
inductive CheckType where
  | title
  | content
  | element
  | json
deriving DecidableEq, Repr

/-- One declarative check: `{ type: ..., value: ... }` in the source. -/
structure Check where
  type : CheckType
  value : String
deriving DecidableEq, Repr

/-- One element of the list returned by `checkContent`:
`{ check, found }` in the source. -/
structure CheckOutcome where
  check : Check
  found : Bool
deriving DecidableEq, Repr

/-- A TestCase of the harness: `{ name, url, checks }`. -/
structure TestCase where
  name : String
  url : String
  checks : List Check
deriving DecidableEq, Repr

/- ### Generic string-scanning machinery

Each JavaScript regex `.test` used by the harness asks for the existence of a
match anywhere in the subject string.  `scanFor p` tries predicate `p` on every
suffix; `seekSkip stop p` tries `p` on every suffix reachable without crossing
the character `stop` (modelling a `[^stop]*` gap); `tokThenChar tok ch` matches
a literal token followed by a `[^ch]*` gap and then `ch`. -/

/-- Substring test, modelling JavaScript `String.prototype.includes`
(case-sensitive). -/
def containsSub : List Char → List Char → Bool
  | l, sub =>
    sub.isPrefixOf l ||
      (match l with
       | [] => false
       | _ :: t => containsSub t sub)

/-- Try `p` on every suffix of the input (a regex match may start anywhere). -/
def scanFor (p : List Char → Bool) : List Char → Bool
  | [] => p []
  | c :: t => p (c :: t) || scanFor p t

/-- Try `p` on every suffix reachable by skipping characters different from
`stop`; models a `[^stop]*` gap before the part matched by `p`. -/
def seekSkip (stop : Char) (p : List Char → Bool) : List Char → Bool
  | [] => p []
  | c :: t => p (c :: t) || (c ≠ stop && seekSkip stop p t)

/-- Match the literal `tok`, then a `[^ch]*` gap, then the character `ch`. -/
def tokThenChar (tok : List Char) (ch : Char) (l : List Char) : Bool :=
  tok.isPrefixOf l && (l.drop tok.length).contains ch

/- ### The `element` check (source lines 82-86)

```js
const classRegex = new RegExp(`<[^>]*class="[^"]*${check.value}[^"]*"`, 'i');
const idRegex = new RegExp(`<[^>]*id="${check.value}"`, 'i');
const tagRegex = new RegExp(`<${check.value}[^>]*>`, 'i');
found = classRegex.test(html) || idRegex.test(html) || tagRegex.test(html);
```

The token is interpolated literally (the tokens the harness uses contain no
regex metacharacters), so each regex is the concatenation of literals and
negated-character-class gaps modelled below. -/

/-- The literal `class="` of the class regex. -/
def classLit : List Char := "class=\"".toList

/-- The literal `id="token"` of the id regex. -/
def idLit (tok : List Char) : List Char := "id=\"".toList ++ tok ++ ['"']

/-- Continuation of the class regex after `<[^>]*`:
`class="[^"]*tok[^"]*"`. -/
def classCont (tok : List Char) (r : List Char) : Bool :=
  classLit.isPrefixOf r && seekSkip '"' (tokThenChar tok '"') (r.drop classLit.length)

/-- Match of `<[^>]*class="[^"]*tok[^"]*"` anchored at the head of the input. -/
def classAt (tok : List Char) : List Char → Bool
  | [] => false
  | c :: r => c = '<' && seekSkip '>' (classCont tok) r

/-- Match of `<[^>]*id="tok"` anchored at the head of the input. -/
def idAt (tok : List Char) : List Char → Bool
  | [] => false
  | c :: r => c = '<' && seekSkip '>' (fun r2 => (idLit tok).isPrefixOf r2) r

/-- Match of `<tok[^>]*>` anchored at the head of the input. -/
def tagAt (tok : List Char) : List Char → Bool
  | [] => false
  | c :: r => c = '<' && tokThenChar tok '>' r

/-- Search anywhere: `classRegex.test(html)`. -/
def elemClassTest (tok l : List Char) : Bool := scanFor (classAt tok) l

/-- Search anywhere: `idRegex.test(html)`. -/
def elemIdTest (tok l : List Char) : Bool := scanFor (idAt tok) l

/-- Search anywhere: `tagRegex.test(html)`. -/
def elemTagTest (tok l : List Char) : Bool := scanFor (tagAt tok) l

/-- Lowercased character list of a string; models the `/i` regex flag. -/
def lowerList (s : String) : List Char := s.toList.map Char.toLower

/-- The `element` check of `checkContent`: the disjunction of the three regex
tests, on the lowercased body and token. -/
def elementFound (html token : String) : Bool :=
  elemClassTest (lowerList token) (lowerList html) ||
    elemIdTest (lowerList token) (lowerList html) ||
      elemTagTest (lowerList token) (lowerList html)

example : elementFound "<div class=\"stats-grid\">" "stats-grid" = true := by decide
example : elementFound "<section id=\"stats-grid\">" "stats-grid" = true := by decide
example : elementFound "<stats-grid>" "stats-grid" = true := by decide
example : elementFound "<div class=\"other\">" "stats-grid" = false := by decide
example : elementFound "<H1 class=\"x\">" "h1" = true := by decide

/- ### The `title` check (source lines 74-79)

```js
const titleRegex = new RegExp(`<title[^>]*>([^<]*)</title>`, 'i');
const match = html.match(titleRegex);
if (match && match[1].includes(check.value)) { found = true; }
```

`String.prototype.match` without the `g` flag returns the leftmost match; the
capture group `([^<]*)` keeps the original casing of the title text, and the
final `includes` is case-sensitive.  `titleAt` decides a match anchored at the
head of the input and returns the capture; `firstSome` finds the leftmost
position where it succeeds. -/

/-- The literal `<title` of the title regex (matched case-insensitively). -/
def titleOpenLit : List Char := "<title".toList

/-- The literal `</title>` of the title regex (matched case-insensitively). -/
def titleCloseLit : List Char := "</title>".toList

/-- Skip the `[^>]*` gap up to and including the first `>`;
`none` when no `>` remains. -/
def skipToGt : List Char → Option (List Char)
  | [] => none
  | c :: t => if c = '>' then some t else skipToGt t

/-- Match of `<title[^>]*>([^<]*)</title>` (with `/i`) anchored at the head of
the input, returning the capture group (original casing). -/
def titleAt (l : List Char) : Option (List Char) :=
  if titleOpenLit.isPrefixOf (l.map Char.toLower) then
    (skipToGt (l.drop titleOpenLit.length)).bind fun r =>
      if titleCloseLit.isPrefixOf ((r.dropWhile (fun c => c ≠ '<')).map Char.toLower) then
        some (r.takeWhile (fun c => c ≠ '<'))
      else none
  else none

/-- Return the result of `f` at the leftmost suffix where it succeeds:
the leftmost-match rule of `String.prototype.match`. -/
def firstSome (f : List Char → Option (List Char)) : List Char → Option (List Char)
  | [] => f []
  | c :: t =>
    match f (c :: t) with
    | some x => some x
    | none => firstSome f t

/-- The capture group of the first (leftmost) title-regex match in the body,
or `none` when the regex does not match. -/
def titleCapture (l : List Char) : Option (List Char) := firstSome titleAt l

/-- The `title` check of `checkContent`: leftmost title capture, then a
case-sensitive `includes` of the expected substring. -/
def titleFound (html expected : String) : Bool :=
  match titleCapture html.toList with
  | some cap => containsSub cap expected.toList
  | none => false

example :
    titleFound "<html><title>Future Agent - Cannabis Industry Knowledge</title></html>"
      "Cannabis Industry Knowledge" = true := by decide
example :
    titleFound "<TITLE lang=\"en\">Future Agent</TITLE>" "Future" = true := by decide
example :
    titleFound "<title>Future Agent</title>" "future" = false := by decide
example :
    titleFound "<title>A</title><title>B</title>" "B" = false := by decide
example :
    titleFound "<title>A</title><title>B</title>" "A" = true := by decide
example : titleFound "no title here" "x" = false := by decide

/- ### The `json` check (source lines 87-93)

```js
try {
  const json = JSON.parse(html);
  found = json.hasOwnProperty(check.value);
} catch (e) {
  found = false;
}
```

`JSON.parse` is modelled by a recursive-descent parser for the JSON grammar
(RFC 8259): ws-separated values, objects, arrays, strings with escapes,
numbers, `true`/`false`/`null`, rejecting trailing input.  Recursion is
indexed by a fuel parameter sized from the input length (every nesting level
consumes input, so the fuel never runs out). -/

/-- Parsed JSON values.  Number lexemes are kept verbatim: the harness only
ever asks for key presence, never for numeric values. -/
inductive Json where
  | null
  | bool (b : Bool)
  | num (lexeme : String)
  | str (s : String)
  | arr (elems : List Json)
  | obj (fields : List (String × Json))

/-- JSON insignificant whitespace. -/
def isJsonWs (c : Char) : Bool := c = ' ' || c = '\t' || c = '\n' || c = '\r'

/-- Skip insignificant whitespace. -/
def skipWs (l : List Char) : List Char := l.dropWhile isJsonWs

/-- The `\x7b` / `\x7d` brace characters of the JSON object syntax. -/
def lbrace : Char := '\x7b'

/-- Closing brace of the JSON object syntax. -/
def rbrace : Char := '\x7d'

/-- Hexadecimal digit test for `\uXXXX` escapes. -/
def isHexDig (c : Char) : Bool :=
  c.isDigit || ('a' ≤ c && c ≤ 'f') || ('A' ≤ c && c ≤ 'F')

/-- Value of a hexadecimal digit. -/
def hexVal (c : Char) : Nat :=
  if c.isDigit then c.toNat - 48
  else if 'a' ≤ c && c ≤ 'f' then c.toNat - 87
  else c.toNat - 55

/-- Single-character JSON string escapes. -/
def escChar (c : Char) : Option Char :=
  if c = '"' then some '"'
  else if c = '\\' then some '\\'
  else if c = '/' then some '/'
  else if c = 'b' then some (Char.ofNat 8)
  else if c = 'f' then some (Char.ofNat 12)
  else if c = 'n' then some '\n'
  else if c = 'r' then some (Char.ofNat 13)
  else if c = 't' then some '\t'
  else none

/-- Parse the body of a JSON string after the opening quote, returning the
decoded characters and the input after the closing quote.  Raw control
characters are rejected, per the JSON grammar.  (A `\uXXXX` escape in the
surrogate range decodes to the replacement `Char.ofNat` default; the harness
never exercises that corner.) -/
def parseStringBody : List Char → Option (List Char × List Char)
  | [] => none
  | '"' :: t => some ([], t)
  | '\\' :: 'u' :: a :: b :: c :: d :: t =>
    if isHexDig a && isHexDig b && isHexDig c && isHexDig d then
      match parseStringBody t with
      | some (s, r) =>
        some (Char.ofNat (4096 * hexVal a + 256 * hexVal b + 16 * hexVal c + hexVal d) :: s, r)
      | none => none
    else none
  | '\\' :: e :: t =>
    match escChar e with
    | some c =>
      match parseStringBody t with
      | some (s, r) => some (c :: s, r)
      | none => none
    | none => none
  | c :: t =>
    if c.toNat < 32 then none
    else
      match parseStringBody t with
      | some (s, r) => some (c :: s, r)
      | none => none

/-- Parse the optional fraction and exponent of a JSON number, given the
lexeme collected so far. -/
def numTail (acc : List Char) (l : List Char) : Option (List Char × List Char) :=
  let (frac, l1) :=
    match l with
    | '.' :: t =>
      let ds := t.takeWhile Char.isDigit
      if ds.isEmpty then ([], none) else (('.' :: ds : List Char), some (t.dropWhile Char.isDigit))
    | _ => ([], some l)
  match l1 with
  | none => none
  | some l2 =>
    match l2 with
    | 'e' :: t => numExp (acc ++ frac) 'e' t
    | 'E' :: t => numExp (acc ++ frac) 'E' t
    | _ => some (acc ++ frac, l2)
where
  /-- Parse a JSON exponent part after `e` / `E`. -/
  numExp (acc2 : List Char) (e : Char) (t : List Char) : Option (List Char × List Char) :=
    let (sgn, t1) :=
      match t with
      | '+' :: t2 => (['+'], t2)
      | '-' :: t2 => (['-'], t2)
      | _ => (([] : List Char), t)
    let ds := t1.takeWhile Char.isDigit
    if ds.isEmpty then none
    else some (acc2 ++ e :: sgn ++ ds, t1.dropWhile Char.isDigit)

/-- Parse a JSON number lexeme: `-? (0 | [1-9][0-9]*) frac? exp?`. -/
def parseNumberLex (l : List Char) : Option (List Char × List Char) :=
  let (sgn, l1) :=
    match l with
    | '-' :: t => ((['-'] : List Char), t)
    | _ => ([], l)
  match l1 with
  | '0' :: t => numTail (sgn ++ ['0']) t
  | c :: t =>
    if c.isDigit then
      numTail (sgn ++ c :: t.takeWhile Char.isDigit) (t.dropWhile Char.isDigit)
    else none
  | [] => none

mutual

/-- Parse one JSON value (after optional leading whitespace), returning the
value and the unconsumed input. -/
def parseValue : Nat → List Char → Option (Json × List Char)
  | 0, _ => none
  | fuel + 1, l =>
    let l1 := skipWs l
    match l1 with
    | [] => none
    | c :: t =>
      if c = lbrace then
        let t1 := skipWs t
        match t1 with
        | c2 :: t2 => if c2 = rbrace then some (.obj [], t2) else parseMembers fuel [] t1
        | [] => none
      else if c = '[' then
        let t1 := skipWs t
        match t1 with
        | ']' :: t2 => some (.arr [], t2)
        | _ => parseElems fuel [] t1
      else if c = '"' then
        match parseStringBody t with
        | some (s, r) => some (.str (String.mk s), r)
        | none => none
      else if c = 't' then
        if "true".toList.isPrefixOf l1 then some (.bool true, l1.drop 4) else none
      else if c = 'f' then
        if "false".toList.isPrefixOf l1 then some (.bool false, l1.drop 5) else none
      else if c = 'n' then
        if "null".toList.isPrefixOf l1 then some (.null, l1.drop 4) else none
      else
        match parseNumberLex l1 with
        | some (lex, r) => some (.num (String.mk lex), r)
        | none => none

/-- Parse the members of a JSON object after at least one member is known to
follow, accumulating the fields in order. -/
def parseMembers : Nat → List (String × Json) → List Char → Option (Json × List Char)
  | 0, _, _ => none
  | fuel + 1, acc, l =>
    match skipWs l with
    | '"' :: t =>
      match parseStringBody t with
      | some (k, r) =>
        match skipWs r with
        | ':' :: r2 =>
          match parseValue fuel r2 with
          | some (v, r3) =>
            match skipWs r3 with
            | ',' :: r4 => parseMembers fuel (acc ++ [(String.mk k, v)]) r4
            | c :: r4 =>
              if c = rbrace then some (.obj (acc ++ [(String.mk k, v)]), r4) else none
            | [] => none
          | none => none
        | _ => none
      | none => none
    | _ => none

/-- Parse the elements of a JSON array after at least one element is known to
follow, accumulating the elements in order. -/
def parseElems : Nat → List Json → List Char → Option (Json × List Char)
  | 0, _, _ => none
  | fuel + 1, acc, l =>
    match parseValue fuel l with
    | some (v, r) =>
      match skipWs r with
      | ',' :: r2 => parseElems fuel (acc ++ [v]) r2
      | ']' :: r2 => some (.arr (acc ++ [v]), r2)
      | _ => none
    | none => none

end

/-- Model of `JSON.parse`: parse one value, reject trailing non-whitespace.
`none` models a thrown `SyntaxError`. -/
def JSONparse (s : String) : Option Json :=
  match parseValue (2 * s.length + 4) s.toList with
  | some (j, r) => if (skipWs r).isEmpty then some j else none
  | none => none

/-- Model of `json.hasOwnProperty(key)` on a `JSON.parse` result.  Objects own
exactly their keys; arrays and strings own their index keys and `length`;
number and boolean primitives own nothing.  On `null` the call throws a
`TypeError` in JavaScript — that throw is caught by the same `try` block as a
parse error, so it is folded into `false` here. -/
def hasOwnProp : Json → String → Bool
  | .obj fields, k => (fields.map Prod.fst).contains k
  | .arr elems, k => k = "length" || (List.range elems.length).any fun i => toString i = k
  | .str s, k => k = "length" || (List.range s.length).any fun i => toString i = k
  | .bool _, _ => false
  | .num _, _ => false
  | .null, _ => false

/-- The `json` check of `checkContent`: `try JSON.parse / hasOwnProperty`
with every throw caught as not-found. -/
def jsonFound (html key : String) : Bool :=
  match JSONparse html with
  | some j => hasOwnProp j key
  | none => false

example :
    jsonFound "\x7b\"total_questions\": 16337, \"results\": []\x7d" "total_questions"
      = true := by decide
example :
    jsonFound "\x7b\"results\": []\x7d" "total_questions" = false := by decide
example : jsonFound "not json" "total_questions" = false := by decide
example : jsonFound "null" "total_questions" = false := by decide
example : jsonFound "\x7b\"a\": [1, 2.5e3, true, null]\x7d" "a" = true := by decide

/- ### `checkContent` (source lines 68-100) -/

/-- The `found` boolean computed for one check inside the loop of
`checkContent`: dispatch on `check.type`. -/
def checkFound (html : String) (check : Check) : Bool :=
  match check.type with
  | .title => titleFound html check.value
  | .content => containsSub html.toList check.value.toList
  | .element => elementFound html check.value
  | .json => jsonFound html check.value

/-- Model of `checkContent(html, checks)`: one `{ check, found }` outcome pushed per
input check, in order. -/
def checkContent (html : String) (checks : List Check) : List CheckOutcome :=
  checks.map fun check => { check := check, found := checkFound html check }

/-- The `allPassed` accumulator of `runTest`: starts `true`, cleared by any
outcome with `found == false`. -/
def allFound (html : String) (checks : List Check) : Bool :=
  (checkContent html checks).all fun r => r.found

/- ### `makeRequest` and `runTest` (source lines 54-66 and 102-145)

`makeRequest` resolves with `{ status, data, headers }` or rejects with an
error (connection failure, or the 10-second timer firing with
`new Error('Request timeout')`).  `FetchOutcome` models the two ways the
promise can settle; headers are carried but only logged, so they are elided. -/

/-- How one `makeRequest` promise settles. -/
inductive FetchOutcome where
  | response (status : Nat) (data : String)
  | netError (msg : String)
deriving DecidableEq, Repr

/-- The fixed per-request timeout passed to `req.setTimeout` (milliseconds). -/
def requestTimeoutMs : Nat := 10000

/-- The message of the error the timeout handler rejects with. -/
def requestTimeoutError : String := "Request timeout"

/-- Per-TestCase verdict taxonomy of the printed report (spec §4 step 4). -/
inductive Verdict where
  | passed
  | partPass
  | failed
deriving DecidableEq, Repr

/-- What `runTest` records for one TestCase: the verdict, the status code it
prints (both the 200 and the non-200 branch print one), and the error message
printed by the `catch` branch. -/
structure TestRecord where
  verdict : Verdict
  shownStatus : Option Nat
  shownError : Option String
deriving DecidableEq, Repr

/-- The control flow of `runTest`: `catch` → failed with the error message;
status 200 → evaluate the checks and report passed / partial pass; any other
status → failed with the status shown and the checks never evaluated. -/
def runTestRecord (t : TestCase) (out : FetchOutcome) : TestRecord :=
  match out with
  | .netError m => { verdict := .failed, shownStatus := none, shownError := some m }
  | .response s d =>
    if s = 200 then
      { verdict := if allFound d t.checks then .passed else .partPass
        shownStatus := some s, shownError := none }
    else
      { verdict := .failed, shownStatus := some s, shownError := none }

/-- The per-TestCase verdict. -/
def runTestVerdict (t : TestCase) (out : FetchOutcome) : Verdict :=
  (runTestRecord t out).verdict

/-- The boolean `runTest` resolves with: `true` exactly on a full pass. -/
def runTest (t : TestCase) (out : FetchOutcome) : Bool :=
  match runTestVerdict t out with
  | .passed => true
  | _ => false

/- ### `runAllTests` and the preflight probe (source lines 147-186) -/

/-- The `passed` counter of `runAllTests`: one increment per TestCase whose
`runTest` resolved `true`.  A run is a list of TestCases paired with how the
fetch of each settled. -/
def passedCount (runs : List (TestCase × FetchOutcome)) : Nat :=
  runs.countP fun p => runTest p.1 p.2

/-- The printed success rate `Math.round((passed / total) * 100)`, with
JavaScript doubles modelled as exact rationals (`Math.round` rounds half
toward positive infinity, as Mathlib `round` does). -/
def successRate (passed total : Nat) : ℤ :=
  round (((passed : ℚ) / (total : ℚ)) * 100)

/-- What one whole invocation of the harness produces: either the preflight
probe rejected and only the server-not-running instructions are printed, or
the full run happened, with one record per TestCase plus the aggregate line. -/
inductive RunReport where
  | completed (records : List TestRecord) (passed total : Nat) (rate : ℤ)
  | serverNotRunning
deriving DecidableEq, Repr

/-- The top-level control flow: `makeRequest(root).then(runAllTests).catch(...)`.
Any resolution of the preflight probe (any status code) starts the run; only a
rejection prints the setup instructions and skips the run. -/
def mainRun (pre : FetchOutcome) (runs : List (TestCase × FetchOutcome)) : RunReport :=
  match pre with
  | .netError _ => .serverNotRunning
  | .response _ _ =>
    .completed (runs.map fun p => runTestRecord p.1 p.2) (passedCount runs) runs.length
      (successRate (passedCount runs) runs.length)

/-- The per-TestCase records a report carries (none at all on preflight
failure). -/
def reportRecords : RunReport → List TestRecord
  | .completed rs _ _ _ => rs
  | .serverNotRunning => []

/-- The aggregate success rate a report prints, when the run happened. -/
def reportRate : RunReport → Option ℤ
  | .completed _ _ _ rate => some rate
  | .serverNotRunning => none

/- ### The static TestCase list of the harness (source lines 8-52) -/

/-- The four TestCases declared at the top of `comprehensive-test.js`. -/
def tests : List TestCase :=
  [ { name := "Homepage Complete Test"
      url := "http://localhost:3000/"
      checks :=
        [ { type := .title, value := "Future Agent - Cannabis Industry Knowledge" },
          { type := .content, value := "16,337" },
          { type := .content, value := "1,456" },
          { type := .content, value := "Cannabis Industry Knowledge Agent" },
          { type := .element, value := "h1" },
          { type := .element, value := "stats-grid" },
          { type := .element, value := "features" },
          { type := .element, value := "cta-section" } ] },
    { name := "F8 Comparison Complete Test"
      url := "http://localhost:3000/f8-comparison.html"
      checks :=
        [ { type := .title, value := "F8 vs Future4200 Comparison" },
          { type := .content, value := "Compare F8 LangChain responses" },
          { type := .element, value := "h1" },
          { type := .element, value := "stats-grid" },
          { type := .element, value := "filters" },
          { type := .element, value := "comparisonResults" },
          { type := .element, value := "search-box" } ] },
    { name := "Data Loading Test"
      url := "http://localhost:3000/data/f8_responses_demo.json"
      checks :=
        [ { type := .json, value := "total_questions" },
          { type := .json, value := "results" } ] },
    { name := "Statistics Data Test"
      url := "http://localhost:3000/data/f8_processing_stats.json"
      checks :=
        [ { type := .json, value := "total_questions" },
          { type := .json, value := "successful" } ] } ]

example : tests.length = 4 := by decide
example : successRate 3 4 = 75 := by norm_num [successRate, round_eq]
example : successRate 1 3 = 33 := by norm_num [successRate, round_eq]

/- ### Correctness of the scanning machinery

Each scanner is related to a declarative decomposition of its input that
transcribes the corresponding regular expression. -/

theorem containsSub_iff (l sub : List Char) :
    containsSub l sub = true ↔ sub <:+: l := by
  induction l with
  | nil =>
    show (sub.isPrefixOf [] || false) = true ↔ _
    simp [List.isPrefixOf_iff_prefix, List.prefix_nil, List.infix_nil]
  | cons c t ih =>
    show (sub.isPrefixOf (c :: t) || containsSub t sub) = true ↔ _
    rw [Bool.or_eq_true, ih, List.isPrefixOf_iff_prefix, List.infix_cons_iff]

theorem scanFor_iff (p : List Char → Bool) (l : List Char) :
    scanFor p l = true ↔ ∃ a b, l = a ++ b ∧ p b = true := by
  induction l with
  | nil =>
    show p [] = true ↔ _
    constructor
    · intro h
      exact ⟨[], [], rfl, h⟩
    · rintro ⟨a, b, hab, hp⟩
      obtain ⟨rfl, rfl⟩ := List.append_eq_nil.mp hab.symm
      exact hp
  | cons c t ih =>
    show (p (c :: t) || scanFor p t) = true ↔ _
    rw [Bool.or_eq_true, ih]
    constructor
    · rintro (h | ⟨a, b, rfl, hp⟩)
      · exact ⟨[], c :: t, rfl, h⟩
      · exact ⟨c :: a, b, rfl, hp⟩
    · rintro ⟨a, b, hab, hp⟩
      cases a with
      | nil =>
        left
        have hb : b = c :: t := by simpa using hab.symm
        rwa [hb] at hp
      | cons x a2 =>
        right
        obtain ⟨rfl, h2⟩ := List.cons.inj hab
        exact ⟨a2, b, h2, hp⟩

theorem seekSkip_iff (stop : Char) (p : List Char → Bool) (l : List Char) :
    seekSkip stop p l = true ↔ ∃ a b, l = a ++ b ∧ stop ∉ a ∧ p b = true := by
  induction l with
  | nil =>
    show p [] = true ↔ _
    constructor
    · intro h
      exact ⟨[], [], rfl, by simp, h⟩
    · rintro ⟨a, b, hab, _, hp⟩
      obtain ⟨rfl, rfl⟩ := List.append_eq_nil.mp hab.symm
      exact hp
  | cons c t ih =>
    show (p (c :: t) || (decide (c ≠ stop) && seekSkip stop p t)) = true ↔ _
    rw [Bool.or_eq_true, Bool.and_eq_true, decide_eq_true_eq, ih]
    constructor
    · rintro (h | ⟨hne, a, b, rfl, hna, hp⟩)
      · exact ⟨[], c :: t, rfl, by simp, h⟩
      · refine ⟨c :: a, b, rfl, ?_, hp⟩
        simp only [List.mem_cons, not_or]
        exact ⟨fun h => hne h.symm, hna⟩
    · rintro ⟨a, b, hab, hna, hp⟩
      cases a with
      | nil =>
        left
        have hb : b = c :: t := by simpa using hab.symm
        rwa [hb] at hp
      | cons x a2 =>
        right
        obtain ⟨rfl, h2⟩ := List.cons.inj hab
        simp only [List.mem_cons, not_or] at hna
        exact ⟨fun h => hna.1 h.symm, a2, b, h2, hna.2, hp⟩

theorem mem_split_first {c : Char} {l : List Char} (h : c ∈ l) :
    ∃ a b, l = a ++ c :: b ∧ c ∉ a := by
  induction l with
  | nil => cases h
  | cons x t ih =>
    by_cases hx : x = c
    · exact ⟨[], t, by simp [hx], by simp⟩
    · have hc : c ∈ t := by
        rcases List.mem_cons.mp h with h1 | h1
        · exact absurd h1.symm hx
        · exact h1
      obtain ⟨a, b, rfl, hna⟩ := ih hc
      refine ⟨x :: a, b, rfl, ?_⟩
      simp only [List.mem_cons, not_or]
      exact ⟨fun h1 => hx h1.symm, hna⟩

theorem contains_split_iff (l : List Char) (c : Char) :
    l.contains c = true ↔ ∃ a b, l = a ++ c :: b ∧ c ∉ a := by
  constructor
  · intro h
    exact mem_split_first (List.elem_iff.mp h)
  · rintro ⟨a, b, rfl, _⟩
    exact List.elem_iff.mpr (by simp)

theorem mapPrefix_iff (lit : List Char) (f : Char → Char) (l : List Char) :
    lit.isPrefixOf (l.map f) = true ↔ ∃ t r, l = t ++ r ∧ t.map f = lit := by
  rw [List.isPrefixOf_iff_prefix]
  constructor
  · intro h
    have htake := List.prefix_iff_eq_take.mp h
    refine ⟨l.take lit.length, l.drop lit.length, (List.take_append_drop _ _).symm, ?_⟩
    rw [List.map_take, ← htake]
  · rintro ⟨t, r, rfl, rfl⟩
    rw [List.map_append]
    exact List.prefix_append _ _

theorem tokThenChar_iff (tok : List Char) (ch : Char) (l : List Char) :
    tokThenChar tok ch l = true ↔ ∃ d e, l = tok ++ (d ++ ch :: e) ∧ ch ∉ d := by
  unfold tokThenChar
  rw [Bool.and_eq_true, List.isPrefixOf_iff_prefix]
  constructor
  · rintro ⟨⟨r, rfl⟩, hc⟩
    rw [List.drop_left] at hc
    obtain ⟨d, e, rfl, hd⟩ := (contains_split_iff r ch).mp hc
    exact ⟨d, e, rfl, hd⟩
  · rintro ⟨d, e, rfl, hd⟩
    refine ⟨⟨d ++ ch :: e, rfl⟩, ?_⟩
    rw [List.drop_left]
    exact (contains_split_iff _ ch).mpr ⟨d, e, rfl, hd⟩

/- ### Declarative semantics of the three `element` regexes -/

/-- Declarative reading of `<tok[^>]*>` matching anywhere:
an opening angle bracket, the token, a gap free of `>`, then `>`. -/
def TagSpec (tok l : List Char) : Prop :=
  ∃ a d e, l = a ++ '<' :: (tok ++ (d ++ '>' :: e)) ∧ '>' ∉ d

/-- Declarative reading of `<[^>]*id="tok"` matching anywhere:
an opening angle bracket, a gap free of `>`, then the literal `id="tok"`. -/
def IdSpec (tok l : List Char) : Prop :=
  ∃ a b e, l = a ++ '<' :: (b ++ (idLit tok ++ e)) ∧ '>' ∉ b

/-- Declarative reading of `<[^>]*class="[^"]*tok[^"]*"` matching anywhere:
an opening angle bracket, a gap free of `>`, the literal `class="`, a gap free
of `"`, the token, another gap free of `"`, then the closing quote. -/
def ClassSpec (tok l : List Char) : Prop :=
  ∃ a b c d e,
    l = a ++ '<' :: (b ++ (classLit ++ (c ++ (tok ++ (d ++ '"' :: e))))) ∧
      '>' ∉ b ∧ '"' ∉ c ∧ '"' ∉ d

theorem elemTagTest_iff (tok l : List Char) :
    elemTagTest tok l = true ↔ TagSpec tok l := by
  unfold elemTagTest
  rw [scanFor_iff]
  constructor
  · rintro ⟨a, b, rfl, hp⟩
    cases b with
    | nil => simp [tagAt] at hp
    | cons x r =>
      have hx : x = '<' ∧ tokThenChar tok '>' r = true := by
        simpa [tagAt] using hp
      obtain ⟨rfl, ht⟩ := hx
      obtain ⟨d, e, rfl, hd⟩ := (tokThenChar_iff tok '>' r).mp ht
      exact ⟨a, d, e, rfl, hd⟩
  · rintro ⟨a, d, e, rfl, hd⟩
    refine ⟨a, '<' :: (tok ++ (d ++ '>' :: e)), rfl, ?_⟩
    simp only [tagAt, decide_True, Bool.true_and]
    exact (tokThenChar_iff tok '>' _).mpr ⟨d, e, rfl, hd⟩

theorem elemIdTest_iff (tok l : List Char) :
    elemIdTest tok l = true ↔ IdSpec tok l := by
  unfold elemIdTest
  rw [scanFor_iff]
  constructor
  · rintro ⟨a, b, rfl, hp⟩
    cases b with
    | nil => simp [idAt] at hp
    | cons x r =>
      have hx : x = '<' ∧ seekSkip '>' (fun r2 => (idLit tok).isPrefixOf r2) r = true := by
        simpa [idAt] using hp
      obtain ⟨rfl, hs⟩ := hx
      obtain ⟨gap, r2, rfl, hgt, hpre⟩ := (seekSkip_iff '>' _ r).mp hs
      obtain ⟨e, rfl⟩ := (List.isPrefixOf_iff_prefix).mp hpre
      exact ⟨a, gap, e, rfl, hgt⟩
  · rintro ⟨a, b, e, rfl, hgt⟩
    refine ⟨a, '<' :: (b ++ (idLit tok ++ e)), rfl, ?_⟩
    simp only [idAt, decide_True, Bool.true_and]
    exact (seekSkip_iff '>' _ _).mpr
      ⟨b, idLit tok ++ e, rfl, hgt, (List.isPrefixOf_iff_prefix).mpr ⟨e, rfl⟩⟩

theorem classCont_iff (tok r : List Char) :
    classCont tok r = true ↔
      ∃ c d e, r = classLit ++ (c ++ (tok ++ (d ++ '"' :: e))) ∧ '"' ∉ c ∧ '"' ∉ d := by
  unfold classCont
  rw [Bool.and_eq_true, List.isPrefixOf_iff_prefix]
  constructor
  · rintro ⟨⟨r3, rfl⟩, hs⟩
    rw [List.drop_left] at hs
    obtain ⟨c, r4, rfl, hc, ht⟩ := (seekSkip_iff '"' _ r3).mp hs
    obtain ⟨d, e, rfl, hd⟩ := (tokThenChar_iff tok '"' r4).mp ht
    exact ⟨c, d, e, rfl, hc, hd⟩
  · rintro ⟨c, d, e, rfl, hc, hd⟩
    refine ⟨⟨_, rfl⟩, ?_⟩
    rw [List.drop_left]
    exact (seekSkip_iff '"' _ _).mpr
      ⟨c, _, rfl, hc, (tokThenChar_iff tok '"' _).mpr ⟨d, e, rfl, hd⟩⟩

theorem elemClassTest_iff (tok l : List Char) :
    elemClassTest tok l = true ↔ ClassSpec tok l := by
  unfold elemClassTest
  rw [scanFor_iff]
  constructor
  · rintro ⟨a, b, rfl, hp⟩
    cases b with
    | nil => simp [classAt] at hp
    | cons x r =>
      have hx : x = '<' ∧ seekSkip '>' (classCont tok) r = true := by
        simpa [classAt] using hp
      obtain ⟨rfl, hs⟩ := hx
      obtain ⟨gap, r2, rfl, hgt, hcc⟩ := (seekSkip_iff '>' _ r).mp hs
      obtain ⟨c, d, e, rfl, hc, hd⟩ := (classCont_iff tok r2).mp hcc
      exact ⟨a, gap, c, d, e, rfl, hgt, hc, hd⟩
  · rintro ⟨a, b, c, d, e, rfl, hgt, hc, hd⟩
    refine ⟨a, _, rfl, ?_⟩
    simp only [classAt, decide_True, Bool.true_and]
    exact (seekSkip_iff '>' _ _).mpr
      ⟨b, _, rfl, hgt, (classCont_iff tok _).mpr ⟨c, d, e, rfl, hc, hd⟩⟩

/- ### Correctness of the title scanner -/

theorem skipToGt_some_iff (l r : List Char) :
    skipToGt l = some r ↔ ∃ b, l = b ++ '>' :: r ∧ '>' ∉ b := by
  induction l with
  | nil =>
    constructor
    · intro h
      simp [skipToGt] at h
    · rintro ⟨b, hb, -⟩
      exact absurd hb.symm (by simp)
  | cons c t ih =>
    by_cases hc : c = '>'
    · subst hc
      rw [show skipToGt ('>' :: t) = some t from by simp [skipToGt]]
      constructor
      · intro h
        obtain rfl : t = r := by injection h
        exact ⟨[], rfl, by simp⟩
      · rintro ⟨b, hb, hnb⟩
        cases b with
        | nil =>
          obtain ⟨-, h2⟩ := List.cons.inj hb
          rw [h2]
        | cons x b2 =>
          obtain ⟨h1, -⟩ := List.cons.inj hb
          refine absurd ?_ hnb
          rw [← h1]
          exact List.mem_cons_self '>' b2
    · rw [show skipToGt (c :: t) = skipToGt t from by simp [skipToGt, hc]]
      rw [ih]
      constructor
      · rintro ⟨b, rfl, hnb⟩
        refine ⟨c :: b, rfl, ?_⟩
        simp only [List.mem_cons, not_or]
        exact ⟨fun h => hc h.symm, hnb⟩
      · rintro ⟨b, hb, hnb⟩
        cases b with
        | nil =>
          obtain ⟨h1, -⟩ := List.cons.inj hb
          exact absurd h1 hc
        | cons x b2 =>
          obtain ⟨rfl, h2⟩ := List.cons.inj hb
          simp only [List.mem_cons, not_or] at hnb
          exact ⟨b2, h2, hnb.2⟩

theorem takeWhile_middle (p : Char → Bool) (a : List Char) (c : Char) (b : List Char)
    (ha : ∀ x ∈ a, p x = true) (hc : p c = false) :
    (a ++ c :: b).takeWhile p = a ∧ (a ++ c :: b).dropWhile p = c :: b := by
  induction a with
  | nil => simp [List.takeWhile_cons, List.dropWhile_cons, hc]
  | cons x t ih =>
    have hx := ha x (by simp)
    have ht : ∀ y ∈ t, p y = true := fun y hy => ha y (by simp [hy])
    obtain ⟨h1, h2⟩ := ih ht
    simp [List.takeWhile_cons, List.dropWhile_cons, hx, h1, h2]

theorem dropWhile_head (p : Char → Bool) (l : List Char) :
    l.dropWhile p = [] ∨ ∃ c t, l.dropWhile p = c :: t ∧ p c = false := by
  induction l with
  | nil => left; rfl
  | cons x t ih =>
    by_cases hx : p x
    · simpa [List.dropWhile_cons, hx] using ih
    · right
      exact ⟨x, t, by simp [List.dropWhile_cons, hx], by simp [hx]⟩

theorem firstSome_some_iff (f : List Char → Option (List Char)) (l x : List Char) :
    firstSome f l = some x ↔
      ∃ i, f (l.drop i) = some x ∧ ∀ j < i, f (l.drop j) = none := by
  induction l with
  | nil =>
    show f [] = some x ↔ _
    constructor
    · intro h
      exact ⟨0, h, fun j hj => absurd hj (Nat.not_lt_zero j)⟩
    · rintro ⟨i, hi, -⟩
      simpa using hi
  | cons c t ih =>
    show (match f (c :: t) with | some y => some y | none => firstSome f t) = some x ↔ _
    cases hf : f (c :: t) with
    | some y =>
      simp only []
      constructor
      · intro h
        refine ⟨0, ?_, fun j hj => absurd hj (Nat.not_lt_zero j)⟩
        simpa [hf] using h
      · rintro ⟨i, hi, hj⟩
        cases i with
        | zero => simpa [hf] using hi
        | succ k =>
          have h0 := hj 0 (Nat.succ_pos k)
          rw [List.drop_zero, hf] at h0
          cases h0
    | none =>
      simp only []
      rw [ih]
      constructor
      · rintro ⟨i, hi, hj⟩
        refine ⟨i + 1, by simpa using hi, fun j hjlt => ?_⟩
        cases j with
        | zero => simpa using hf
        | succ k =>
          rw [List.drop_succ_cons]
          exact hj k (Nat.lt_of_succ_lt_succ hjlt)
      · rintro ⟨i, hi, hj⟩
        cases i with
        | zero =>
          rw [List.drop_zero, hf] at hi
          cases hi
        | succ k =>
          refine ⟨k, by simpa using hi, fun j hjlt => ?_⟩
          have := hj (j + 1) (Nat.succ_lt_succ hjlt)
          simpa using this

theorem firstSome_none_iff (f : List Char → Option (List Char)) (l : List Char) :
    firstSome f l = none ↔ ∀ i, f (l.drop i) = none := by
  induction l with
  | nil =>
    show f [] = none ↔ _
    constructor
    · intro h i
      simpa using h
    · intro h
      simpa using h 0
  | cons c t ih =>
    show (match f (c :: t) with | some y => some y | none => firstSome f t) = none ↔ _
    cases hf : f (c :: t) with
    | some y =>
      simp only []
      constructor
      · intro h
        cases h
      · intro h
        have := h 0
        rw [List.drop_zero, hf] at this
        cases this
    | none =>
      simp only []
      rw [ih]
      constructor
      · intro h i
        cases i with
        | zero => simpa using hf
        | succ k =>
          rw [List.drop_succ_cons]
          exact h k
      · intro h i
        have := h (i + 1)
        simpa using this

/-- Declarative reading of one match of `<title[^>]*>([^<]*)</title>` (with
`/i`) anchored at the head of the input: six characters lowering to `<title`,
a gap free of `>`, the `>`, the capture (free of `<`), then eight characters
lowering to `</title>`.  At a fixed start position the capture is unique,
since the gaps cannot absorb their terminator characters. -/
def TitleAtSpec (l cap : List Char) : Prop :=
  ∃ t b c2 r,
    l = t ++ (b ++ '>' :: (cap ++ '<' :: (c2 ++ r))) ∧
      t.map Char.toLower = titleOpenLit ∧ '>' ∉ b ∧ '<' ∉ cap ∧
      ('<' :: c2).map Char.toLower = titleCloseLit

theorem titleAt_some_iff (l cap : List Char) :
    titleAt l = some cap ↔ TitleAtSpec l cap := by
  constructor
  · intro h
    unfold titleAt at h
    by_cases hpre : titleOpenLit.isPrefixOf (l.map Char.toLower) = true
    case neg =>
      rw [if_neg hpre] at h
      cases h
    rw [if_pos hpre] at h
    obtain ⟨t, r6, rfl, htl⟩ := (mapPrefix_iff _ _ _).mp hpre
    have hlen : t.length = titleOpenLit.length := by rw [← htl, List.length_map]
    rw [List.drop_left' hlen] at h
    cases heq : skipToGt r6 with
    | none => rw [heq, Option.none_bind] at h; cases h
    | some r =>
      rw [heq, Option.some_bind] at h
      obtain ⟨bgap, rfl, hnb⟩ := (skipToGt_some_iff r6 r).mp heq
      by_cases hclose :
          titleCloseLit.isPrefixOf
            ((r.dropWhile (fun c => c ≠ '<')).map Char.toLower) = true
      case neg => rw [if_neg hclose] at h; cases h
      rw [if_pos hclose] at h
      obtain rfl : r.takeWhile (fun c => c ≠ '<') = cap := by injection h
      obtain ⟨u, r2, hdw, hu⟩ := (mapPrefix_iff _ _ _).mp hclose
      cases u with
      | nil => simp [titleCloseLit] at hu
      | cons u0 u2 =>
        have hu0 : u0 = '<' := by
          rcases dropWhile_head (fun c => c ≠ '<') r with hnil | ⟨c0, t0, hct, hc0⟩
          · rw [hnil] at hdw
            exact absurd hdw.symm (by simp)
          · rw [hct] at hdw
            obtain ⟨rfl, -⟩ := List.cons.inj hdw
            simpa using hc0
        subst hu0
        refine ⟨t, bgap, u2, r2, ?_, htl, hnb, ?_, hu⟩
        · have hr : r = r.takeWhile (fun c => c ≠ '<') ++ ('<' :: (u2 ++ r2)) := by
            rw [← List.cons_append, ← hdw, List.takeWhile_append_dropWhile]
          rw [← hr]
        · intro hmem
          have := List.mem_takeWhile_imp hmem
          simp at this
  · rintro ⟨t, b, c2, r, rfl, htl, hnb, hncap, hclose⟩
    have hlen : t.length = titleOpenLit.length := by rw [← htl, List.length_map]
    have hpre :
        titleOpenLit.isPrefixOf
          ((t ++ (b ++ '>' :: (cap ++ '<' :: (c2 ++ r)))).map Char.toLower) = true :=
      (mapPrefix_iff _ _ _).mpr ⟨t, _, rfl, htl⟩
    unfold titleAt
    rw [if_pos hpre, List.drop_left' hlen,
      (skipToGt_some_iff _ _).mpr ⟨b, rfl, hnb⟩, Option.some_bind]
    have hmid :=
      takeWhile_middle (fun c => c ≠ '<') cap '<' (c2 ++ r)
        (fun x hx => by
          simp only [ne_eq, decide_eq_true_eq]
          intro hxe
          exact hncap (hxe ▸ hx))
        (by simp)
    rw [hmid.2, hmid.1]
    have hmap : (('<' : Char) :: (c2 ++ r)).map Char.toLower
        = titleCloseLit ++ r.map Char.toLower := by
      rw [← hclose]
      simp
    rw [if_pos (by
      rw [hmap]
      exact (List.isPrefixOf_iff_prefix).mpr (List.prefix_append _ _))]

theorem titleCapture_some_iff (l cap : List Char) :
    titleCapture l = some cap ↔
      ∃ i, TitleAtSpec (l.drop i) cap ∧
        ∀ j < i, ∀ c2, ¬ TitleAtSpec (l.drop j) c2 := by
  unfold titleCapture
  rw [firstSome_some_iff]
  constructor
  · rintro ⟨i, hi, hj⟩
    refine ⟨i, (titleAt_some_iff _ _).mp hi, fun j hjlt c2 hc2 => ?_⟩
    have hn := hj j hjlt
    rw [(titleAt_some_iff _ _).mpr hc2] at hn
    cases hn
  · rintro ⟨i, hi, hj⟩
    refine ⟨i, (titleAt_some_iff _ _).mpr hi, fun j hjlt => ?_⟩
    cases hta : titleAt (l.drop j) with
    | none => rfl
    | some c2 => exact absurd ((titleAt_some_iff _ _).mp hta) (hj j hjlt c2)

theorem titleCapture_none_iff (l : List Char) :
    titleCapture l = none ↔ ∀ i cap, ¬ TitleAtSpec (l.drop i) cap := by
  unfold titleCapture
  rw [firstSome_none_iff]
  constructor
  · intro h i cap hc
    have hn := h i
    rw [(titleAt_some_iff _ _).mpr hc] at hn
    cases hn
  · intro h i
    cases hta : titleAt (l.drop i) with
    | none => rfl
    | some c2 => exact absurd ((titleAt_some_iff _ _).mp hta) (h i c2)

/-- A permutation of a boolean list leaves its disjunction unchanged. -/
theorem perm_any_eq {l1 l2 : List Bool} (h : l1.Perm l2) : l1.any id = l2.any id := by
  induction h with
  | nil => rfl
  | cons x h ih => simp [List.any_cons, ih]
  | swap x y l => simp [List.any_cons, ← Bool.or_assoc, Bool.or_comm x y]
  | trans h1 h2 ih1 ih2 => rw [ih1, ih2]

/- ### Claim theorems -/

/-- C1: for every TestCase the per-TestCase verdict is a trichotomy — fetched
status 200 with every check found gives "passed", status 200 with at least one
check missing gives "partial pass", and every other outcome (non-200 status,
network error, or timeout rejection) gives "failed". -/
theorem c1_verdict_trichotomy (t : TestCase) (status : Nat) (data msg : String) :
    (status = 200 → allFound data t.checks = true →
      runTestVerdict t (.response status data) = .passed) ∧
    (status = 200 → allFound data t.checks = false →
      runTestVerdict t (.response status data) = .partPass) ∧
    (status ≠ 200 → runTestVerdict t (.response status data) = .failed) ∧
    runTestVerdict t (.netError msg) = .failed := by
  refine ⟨?_, ?_, ?_, rfl⟩
  · rintro rfl hall
    simp [runTestVerdict, runTestRecord, hall]
  · rintro rfl hall
    simp [runTestVerdict, runTestRecord, hall]
  · intro hne
    simp [runTestVerdict, runTestRecord, hne]

/-- Witness for C1 at concrete inputs: all three verdicts and the
network-error case realized. -/
theorem c1_verdict_trichotomy_witness :
    runTestVerdict ⟨"t", "u", [⟨CheckType.content, "x"⟩]⟩ (.response 200 "xy")
        = .passed ∧
    runTestVerdict ⟨"t", "u", [⟨CheckType.content, "x"⟩]⟩ (.response 200 "zz")
        = .partPass ∧
    runTestVerdict ⟨"t", "u", [⟨CheckType.content, "x"⟩]⟩ (.response 404 "xy")
        = .failed ∧
    runTestVerdict ⟨"t", "u", [⟨CheckType.content, "x"⟩]⟩ (.netError "boom")
        = .failed :=
  ⟨(c1_verdict_trichotomy ⟨"t", "u", [⟨CheckType.content, "x"⟩]⟩ 200 "xy" "boom").1
      rfl (by decide),
   (c1_verdict_trichotomy ⟨"t", "u", [⟨CheckType.content, "x"⟩]⟩ 200 "zz" "boom").2.1
      rfl (by decide),
   (c1_verdict_trichotomy ⟨"t", "u", [⟨CheckType.content, "x"⟩]⟩ 404 "xy" "boom").2.2.1
      (by decide),
   (c1_verdict_trichotomy ⟨"t", "u", [⟨CheckType.content, "x"⟩]⟩ 404 "xy" "boom").2.2.2⟩

/-- C2: the `element` check is found exactly when the (lowercased) body
matches one of the three regex readings — a tag with a `class` attribute
containing the token, a tag with an `id` attribute equal to the token, or a
bare opening tag named by the token; any one of the three suffices. -/
theorem c2_element_check_semantics (html token : String) :
    elementFound html token = true ↔
      ClassSpec (lowerList token) (lowerList html) ∨
        IdSpec (lowerList token) (lowerList html) ∨
          TagSpec (lowerList token) (lowerList html) := by
  unfold elementFound
  rw [Bool.or_eq_true, Bool.or_eq_true,
    elemClassTest_iff, elemIdTest_iff, elemTagTest_iff, or_assoc]

/-- Witness for C2: a bare `<h1>` tag makes the `element` check succeed via
the tag sub-test. -/
theorem c2_element_check_semantics_witness : elementFound "<h1>" "h1" = true :=
  (c2_element_check_semantics "<h1>" "h1").mpr
    (Or.inr (Or.inr ⟨[], [], [], by decide, by decide⟩))

/-- C3: the `json` check never propagates an exception — a parse failure
evaluates to not-found, a parse producing a top-level mapping evaluates to
found exactly when the mapping has the key, a check never affects the
outcomes of other checks of the same TestCase (`checkContent` distributes
over the check list), and the three concrete bodies of the claim behave as
stated. -/
theorem c3_json_check (html key : String) :
    (JSONparse html = none → jsonFound html key = false) ∧
    (∀ fields, JSONparse html = some (Json.obj fields) →
      (jsonFound html key = true ↔ key ∈ fields.map Prod.fst)) ∧
    (∀ cs1 cs2, checkContent html (cs1 ++ cs2)
        = checkContent html cs1 ++ checkContent html cs2) ∧
    jsonFound "\x7b\"total_questions\": 16337, \"results\": []\x7d" "total_questions"
        = true ∧
    jsonFound "\x7b\"results\": []\x7d" "total_questions" = false ∧
    jsonFound "not json" "total_questions" = false := by
  refine ⟨?_, ?_, ?_, by decide, by decide, by decide⟩
  · intro h
    simp [jsonFound, h]
  · intro fields h
    rw [show jsonFound html key = (fields.map Prod.fst).contains key from by
      simp [jsonFound, h, hasOwnProp]]
    exact List.elem_iff
  · intro cs1 cs2
    simp [checkContent]

/-- Witness for C3: the malformed body evaluates to not-found through the
parse-failure branch. -/
theorem c3_json_check_witness : jsonFound "not json" "total_questions" = false :=
  (c3_json_check "not json" "total_questions").1 rfl

/-- C4: the `title` check extracts the first (leftmost) title-regex match,
case-insensitive on the tag name, and is found exactly when the captured
title text contains the expected substring case-sensitively; when the regex
does not match anywhere the check is not found. -/
theorem c4_title_check (html expected : String) :
    (∀ cap,
      (∃ i, TitleAtSpec (html.toList.drop i) cap ∧
        ∀ j < i, ∀ c2, ¬ TitleAtSpec (html.toList.drop j) c2) →
      (titleFound html expected = true ↔
        ∃ a b, cap = a ++ expected.toList ++ b)) ∧
    ((∀ i cap, ¬ TitleAtSpec (html.toList.drop i) cap) →
      titleFound html expected = false) := by
  constructor
  · intro cap hfirst
    have hc : titleCapture html.toList = some cap :=
      (titleCapture_some_iff _ _).mpr hfirst
    unfold titleFound
    rw [hc, containsSub_iff]
    constructor
    · rintro ⟨s, u, h⟩
      exact ⟨s, u, h.symm⟩
    · rintro ⟨a, b, h⟩
      exact ⟨a, b, h.symm⟩
  · intro hnone
    unfold titleFound
    rw [(titleCapture_none_iff _).mpr hnone]

/-- Witness for C4: the claim's concrete example, with the leftmost match at
position 0. -/
theorem c4_title_check_witness :
    titleFound "<title>Future Agent - Cannabis Industry Knowledge</title>"
      "Cannabis Industry Knowledge" = true :=
  ((c4_title_check "<title>Future Agent - Cannabis Industry Knowledge</title>"
      "Cannabis Industry Knowledge").1
    "Future Agent - Cannabis Industry Knowledge".toList
    ⟨0,
      ⟨"<title".toList, [], "/title>".toList, [],
        by decide, by decide, by decide, by decide, by decide⟩,
      fun j hj => absurd hj (Nat.not_lt_zero j)⟩).mpr
    ⟨"Future Agent - ".toList, [], by decide⟩

/-- C5: a failed preflight probe (the root-path request rejects) yields the
distinct server-not-running report, which carries zero per-TestCase records,
and no resolved probe ever yields that report. -/
theorem c5_preflight (msg : String) (runs : List (TestCase × FetchOutcome)) :
    mainRun (.netError msg) runs = .serverNotRunning ∧
    reportRecords (mainRun (.netError msg) runs) = [] ∧
    ∀ (s : Nat) (d : String), mainRun (.response s d) runs ≠ .serverNotRunning := by
  refine ⟨rfl, rfl, fun s d h => ?_⟩
  simp [mainRun] at h

/-- Witness for C5 at a concrete rejection and a concrete response. -/
theorem c5_preflight_witness :
    mainRun (.netError "connect ECONNREFUSED") [] = .serverNotRunning ∧
    mainRun (.response 200 "ok") [] ≠ .serverNotRunning :=
  ⟨(c5_preflight "connect ECONNREFUSED" []).1,
   (c5_preflight "connect ECONNREFUSED" []).2.2 200 "ok"⟩

/-- C6: a non-200 response records the TestCase as failed with the status
code shown, the checks are never evaluated (the record does not depend on
them), and the run continues — surrounding TestCases are counted exactly as
if the failing one were absent. -/
theorem c6_non200 (name url : String) (cs1 cs2 : List Check) (s : Nat) (d : String)
    (pre suf : List (TestCase × FetchOutcome)) (hs : s ≠ 200) :
    runTestRecord ⟨name, url, cs1⟩ (.response s d)
        = { verdict := .failed, shownStatus := some s, shownError := none } ∧
    runTestRecord ⟨name, url, cs1⟩ (.response s d)
        = runTestRecord ⟨name, url, cs2⟩ (.response s d) ∧
    passedCount (pre ++ (⟨name, url, cs1⟩, FetchOutcome.response s d) :: suf)
        = passedCount pre + passedCount suf := by
  refine ⟨by simp [runTestRecord, hs], by simp [runTestRecord, hs], ?_⟩
  have hfail : runTest ⟨name, url, cs1⟩ (.response s d) = false := by
    simp [runTest, runTestVerdict, runTestRecord, hs]
  simp [passedCount, List.countP_append, List.countP_cons, hfail]

/-- Witness for C6 at a concrete 404 with a nonempty check list. -/
theorem c6_non200_witness :
    runTestRecord ⟨"t", "u", [⟨CheckType.content, "x"⟩]⟩ (.response 404 "body")
      = { verdict := Verdict.failed, shownStatus := some 404, shownError := none } :=
  (c6_non200 "t" "u" [⟨CheckType.content, "x"⟩] [] 404 "body" [] [] (by decide)).1

/-- C7: a network error or the expiry of the fixed 10-second timeout records
that TestCase alone as failed with the error message, an elapsed timeout is
equivalent for verdict purposes to any connection error, and the run
continues with the surrounding TestCases counted unchanged. -/
theorem c7_network_error (t : TestCase) (m : String)
    (pre suf : List (TestCase × FetchOutcome)) :
    runTestRecord t (.netError m)
        = { verdict := .failed, shownStatus := none, shownError := some m } ∧
    runTestVerdict t (.netError requestTimeoutError) = runTestVerdict t (.netError m) ∧
    requestTimeoutMs = 10000 ∧
    passedCount (pre ++ (t, FetchOutcome.netError m) :: suf)
        = passedCount pre + passedCount suf := by
  refine ⟨rfl, rfl, rfl, ?_⟩
  simp [passedCount, List.countP_append, List.countP_cons, runTest, runTestVerdict,
    runTestRecord]

/-- C8: whenever the run happens (the preflight probe resolved), the printed
aggregate success rate for N TestCases with P recorded passes is
`round(100 * P / N)`. -/
theorem c8_success_rate (s : Nat) (d : String)
    (runs : List (TestCase × FetchOutcome)) :
    reportRate (mainRun (.response s d) runs)
      = some (round (100 * (passedCount runs : ℚ) / (runs.length : ℚ))) := by
  show some (successRate (passedCount runs) runs.length) = _
  unfold successRate
  rw [div_mul_eq_mul_div, mul_comm]

/-- C9: the boolean result of the `element` check does not depend on the
order of its three sub-tests — any permutation of the three sub-test results
has the same disjunction. -/
theorem c9_element_order_independent (html token : String) (l : List Bool)
    (h : l.Perm
      [elemClassTest (lowerList token) (lowerList html),
       elemIdTest (lowerList token) (lowerList html),
       elemTagTest (lowerList token) (lowerList html)]) :
    l.any id = elementFound html token := by
  rw [perm_any_eq h]
  simp [elementFound, List.any_cons, List.any_nil, Bool.or_assoc]

/-- Witness for C9: evaluating the three sub-tests in a different order gives
the same result on a concrete body. -/
theorem c9_element_order_independent_witness :
    [elemIdTest (lowerList "h1") (lowerList "<h1>"),
     elemClassTest (lowerList "h1") (lowerList "<h1>"),
     elemTagTest (lowerList "h1") (lowerList "<h1>")].any id
      = elementFound "<h1>" "h1" :=
  c9_element_order_independent "<h1>" "h1"
    [elemIdTest (lowerList "h1") (lowerList "<h1>"),
     elemClassTest (lowerList "h1") (lowerList "<h1>"),
     elemTagTest (lowerList "h1") (lowerList "<h1>")] (by decide)

/-- C10: `checkContent` is total and returns exactly one outcome per input
check, in input order, each outcome carrying the corresponding input check. -/
theorem c10_checkContent_shape (html : String) (checks : List Check) :
    (checkContent html checks).length = checks.length ∧
    ∀ (i : Nat) (h1 : i < (checkContent html checks).length)
      (h2 : i < checks.length),
      ((checkContent html checks).get ⟨i, h1⟩).check = checks.get ⟨i, h2⟩ := by
  refine ⟨by simp [checkContent], fun i h1 h2 => ?_⟩
  simp [checkContent]

/-- Witness for C10 at a one-element check list. -/
theorem c10_checkContent_shape_witness :
    ((checkContent "x" [⟨CheckType.content, "x"⟩]).get
        ⟨0, (by decide :
          0 < (checkContent "x" [⟨CheckType.content, "x"⟩]).length)⟩).check
      = ⟨CheckType.content, "x"⟩ :=
  (c10_checkContent_shape "x" [⟨CheckType.content, "x"⟩]).2 0 (by decide) (by decide)
